import Mathlib

/-!  Shallow embedding of the backtest_mirror trading engine.

Prices, indicator values and R-multiples are modelled as rational numbers
(the Python code uses floats); timestamps are integers (epoch seconds, as
produced by `int(ts.timestamp())`).  Each definition is a direct
translation of the corresponding Python function in `src/`.
-/

namespace BacktestMirror

/-- Quantize from `src/engine/utils.py`: rounds `value` down to the nearest
multiple of `tick`; identity when `tick` is absent or nonpositive
(`if tick is None or tick <= 0: return value; return floor(value/tick)*tick`). -/
def quantize (value tick : ℚ) : ℚ :=
  if tick ≤ 0 then value else ⌊value / tick⌋ * tick

/-- Sign from `src/engine/utils.py` (also the behaviour of `np.sign` on
real inputs): 1 for positive, -1 for negative, 0 for zero. -/
def sign (x : ℚ) : Int :=
  if 0 < x then 1 else if x < 0 then -1 else 0

/-- Trade from `src/engine/risk.py` (dataclass `Trade`), with the same
fields and the same defaults. -/
structure Trade where
  side : Int
  entry_ts : Int
  entry_px : ℚ
  atr_entry : ℚ
  r_value : ℚ
  sl_px : ℚ
  tsl_on_ts : Int := 0
  last_tsl_step_ts : Int := 0
  state : String := "OPEN"
  exit_ts : Int := 0
  exit_px : ℚ := 0
  exit_reason : String := ""
  R : ℚ := 0
  overshoot_R : ℚ := 0
  deriving DecidableEq

/-- Configuration of `RiskManager` (`src/engine/risk.py`, `__init__`),
with `self.sym_tick or self.quant_tick` resolved once into `tick`
(the same expression is used at every quantization site). -/
structure RiskCfg where
  sl_mult : ℚ
  tp_mult : ℚ := 0
  tsl_enabled : Bool := true
  be_enabled : Bool := true
  be_threshold_R : ℚ := 1/2
  tsl_atr_mult : ℚ
  step_atr_mult : ℚ
  first_step_delay : Int
  min_step_secs : Int
  floor_from_med_mult : ℚ
  tick : ℚ
  deriving DecidableEq

/-- RiskManager.open_trade: `r_val = atr_now * sl_mult`; stop at
`px - r_val` for a long / `px + r_val` otherwise, quantized; both
trailing timestamps initialised to the entry timestamp.  The `med_atr`
argument is accepted and unused, exactly as in the source. -/
def open_trade (rm : RiskCfg) (ts : Int) (px : ℚ) (side : Int)
    (atr_now med_atr : ℚ) : Trade :=
  let r_val := atr_now * rm.sl_mult
  let sl0 := if side = 1 then px - r_val else px + r_val
  let sl := quantize sl0 rm.tick
  { side := side, entry_ts := ts, entry_px := px, atr_entry := atr_now,
    r_value := r_val, sl_px := sl, tsl_on_ts := ts, last_tsl_step_ts := ts }

/-- RiskManager._be_check: once unrealized R reaches the threshold, move
the stop to the quantized entry price, but only if that is strictly more
favorable than the current stop; a move also resets the last-step
timestamp. -/
def be_check (rm : RiskCfg) (t : Trade) (ts : Int) (px : ℚ) : Trade :=
  if ¬ rm.be_enabled ∨ t.state ≠ "OPEN" then t
  else
    let R_unreal := (px - t.entry_px) * (t.side : ℚ) / t.r_value
    if rm.be_threshold_R ≤ R_unreal then
      let new_sl := quantize t.entry_px rm.tick
      if (t.side = 1 ∧ t.sl_px < new_sl) ∨ (t.side = -1 ∧ new_sl < t.sl_px) then
        { t with sl_px := new_sl, last_tsl_step_ts := ts }
      else t
    else t

/-- RiskManager._tsl_distance_now: `max(tsl_atr_mult*atr, floor_from_med_mult*med_atr)`. -/
def tsl_distance_now (rm : RiskCfg) (atr_now med_atr : ℚ) : ℚ :=
  max (rm.tsl_atr_mult * atr_now) (rm.floor_from_med_mult * med_atr)

/-- RiskManager._advance_required: `step_atr_mult * atr_now`. -/
def advance_required (rm : RiskCfg) (atr_now : ℚ) : ℚ :=
  rm.step_atr_mult * atr_now

/-- RiskManager._eligible_for_step: trailing enabled, first-step delay
elapsed since arming, and min-step interval elapsed since the last step. -/
def eligible_for_step (rm : RiskCfg) (t : Trade) (ts : Int) : Bool :=
  if ¬ rm.tsl_enabled then false
  else if ts - t.tsl_on_ts < rm.first_step_delay then false
  else if ts - t.last_tsl_step_ts < rm.min_step_secs then false
  else true

/-- RiskManager.maybe_step_trailing: when eligible and price has advanced
from the current stop by at least the required amount, propose
`close ∓ tsl_distance`; move only if strictly more favorable, writing the
quantized candidate and updating the last-step timestamp. -/
def maybe_step_trailing (rm : RiskCfg) (t : Trade) (ts : Int)
    (px atr_now med_atr : ℚ) : Trade :=
  if ¬ eligible_for_step rm t ts then t
  else
    let adv_needed := advance_required rm atr_now
    if t.side = 1 then
      if px - t.sl_px < adv_needed then t
      else
        let new_sl := px - tsl_distance_now rm atr_now med_atr
        if new_sl ≤ t.sl_px then t
        else { t with sl_px := quantize new_sl rm.tick, last_tsl_step_ts := ts }
    else
      if t.sl_px - px < adv_needed then t
      else
        let new_sl := px + tsl_distance_now rm atr_now med_atr
        if t.sl_px ≤ new_sl then t
        else { t with sl_px := quantize new_sl rm.tick, last_tsl_step_ts := ts }

/-- The intrabar stop-hit test of check_exit (`risk.py` lines 114-125):
when the bar reaches the stop, the triple of exit price (the stop),
overshoot (as written in the source) and reason (TSL when the stop is at
or past breakeven, else SL). -/
def stop_hit (t : Trade) (bar_high bar_low : ℚ) : Option (ℚ × ℚ × String) :=
  if t.side = 1 then
    if bar_low ≤ t.sl_px then
      some (t.sl_px, (bar_low - t.sl_px) * (t.side : ℚ) / t.r_value,
            if t.entry_px ≤ t.sl_px then "TSL" else "SL")
    else none
  else
    if t.sl_px ≤ bar_high then
      some (t.sl_px, (t.sl_px - bar_high) * (t.side : ℚ) / t.r_value,
            if t.sl_px ≤ t.entry_px then "TSL" else "SL")
    else none

/-- The exit resolution of check_exit: the stop-hit result if any,
otherwise the optional take-profit (`risk.py` lines 127-132, active when
`tp_mult > 0`, with zero overshoot and reason TP). -/
def exit_info (rm : RiskCfg) (t : Trade) (bar_high bar_low : ℚ) :
    Option (ℚ × ℚ × String) :=
  match stop_hit t bar_high bar_low with
  | some x => some x
  | none =>
    if 0 < rm.tp_mult then
      let tp_px := t.entry_px + (t.side : ℚ) * (rm.tp_mult * t.atr_entry)
      if (t.side = 1 ∧ tp_px ≤ bar_high) ∨ (t.side = -1 ∧ bar_low ≤ tp_px) then
        some (tp_px, 0, "TP")
      else none
    else none

/-- RiskManager.check_exit: close the trade on the resolved exit (stop
family first, then optional take-profit), setting the exit fields and
`R = (exit_px - entry_px) * side / r_value`, returning `(trade, true)`;
otherwise return `(trade, false)` unchanged. -/
def check_exit (rm : RiskCfg) (t : Trade) (ts : Int)
    (bar_open bar_high bar_low bar_close : ℚ) : Trade × Bool :=
  match exit_info rm t bar_high bar_low with
  | none => (t, false)
  | some (px, ov, reason) =>
      ({ t with state := "CLOSED", exit_ts := ts, exit_px := px,
                exit_reason := reason,
                R := (px - t.entry_px) * (t.side : ℚ) / t.r_value,
                overshoot_R := ov }, true)

/-- One row of the precomputed per-bar frame walked by `BacktestEngine.run`
(`src/engine/backtest.py`): the OHLC columns of the bar plus the signal
columns attached before the walk (`atr`, `med_atr`, `squeeze`, `rel_up`,
`rel_dn`, `regime`, `long_trig`, `short_trig`), and the bar's epoch-second
timestamp (`int(ts.timestamp())`).  The flag columns are integers, as the
source stores them via `astype(int)`. -/
structure Row where
  epoch : Int
  open_px : ℚ
  high : ℚ
  low : ℚ
  close : ℚ
  atr : ℚ
  med_atr : ℚ
  squeeze : Int
  rel_up : Int
  rel_dn : Int
  regime : Int
  long_trig : Int
  short_trig : Int
  deriving DecidableEq

instance : Inhabited Row :=
  ⟨{ epoch := 0, open_px := 0, high := 0, low := 0, close := 0, atr := 0,
     med_atr := 0, squeeze := 0, rel_up := 0, rel_dn := 0, regime := 0,
     long_trig := 0, short_trig := 0 }⟩

/-- Engine-level configuration (`BacktestEngine.__init__` plus
`EntryManager.__init__`): warmup bar count, post-exit cooldown length
(`entry.cooldown_bars`, reused for both counters), and the entry
direction permission string. -/
structure EngCfg where
  warmup_bars : Nat
  cooldown_bars : Nat
  direction : String
  risk : RiskCfg
  deriving DecidableEq

/-- Mutable state threaded through the bar loop of `BacktestEngine.run`:
the ledger built so far, the open-trade slot, the engine's post-exit
cooldown counter, and EntryManager's cooldown counter
(`EntryManager._cooldown`). -/
structure EngState where
  trades : List Trade
  open_trade : Option Trade
  cooldown : Nat
  entry_cd : Nat
  deriving DecidableEq

/-- Initial loop state: empty ledger, no open trade, both counters zero. -/
def initState : EngState :=
  { trades := [], open_trade := none, cooldown := 0, entry_cd := 0 }

/-- EntryManager.can_long: direction is "long" or "both". -/
def can_long_dir (direction : String) : Prop :=
  direction = "long" ∨ direction = "both"

/-- EntryManager.can_short: direction is "short" or "both". -/
def can_short_dir (direction : String) : Prop :=
  direction = "short" ∨ direction = "both"

instance (d : String) : Decidable (can_long_dir d) := by
  unfold can_long_dir; infer_instance

instance (d : String) : Decidable (can_short_dir d) := by
  unfold can_short_dir; infer_instance

/-- One iteration of the bar loop in `BacktestEngine.run` at position `i`
of the (sorted) frame.  Bars before warmup are skipped entirely
(`len(df.loc[:ts]) < warmup_bars` is `i + 1 < warmup_bars` on a sorted
unique index, and `continue` happens before the cooldown ticks).  After
the ticks, an open trade is managed (breakeven check, trailing step, exit
check, in that order); on exit the closed trade is appended, the slot is
cleared, the post-exit cooldown armed, and the bar ends.  Otherwise, if
flat, not cooling down and EntryManager is ready, the entry gate runs and
a qualifying bar opens a trade at the bar's open price (long preferred)
and arms EntryManager's cooldown. -/
def stepBar (cfg : EngCfg) (i : Nat) (row : Row) (s : EngState) : EngState :=
  if i + 1 < cfg.warmup_bars then s
  else
    let s1 : EngState := { s with entry_cd := s.entry_cd - 1, cooldown := s.cooldown - 1 }
    match s1.open_trade with
    | some t =>
        let t1 := be_check cfg.risk t row.epoch row.close
        let t2 := maybe_step_trailing cfg.risk t1 row.epoch row.close row.atr row.med_atr
        let r := check_exit cfg.risk t2 row.epoch row.open_px row.high row.low row.close
        if r.2 then
          { s1 with trades := s1.trades ++ [r.1], open_trade := none,
                    cooldown := cfg.cooldown_bars }
        else
          { s1 with open_trade := some r.1 }
    | none =>
        if s1.cooldown = 0 ∧ s1.entry_cd = 0 then
          let long_ok := (can_long_dir cfg.direction ∧ row.regime = 1) ∧
                         row.squeeze = 1 ∧ row.long_trig = 1
          let short_ok := (can_short_dir cfg.direction ∧ row.regime = -1) ∧
                          row.squeeze = 1 ∧ row.short_trig = 1
          if long_ok ∨ short_ok then
            let side : Int := if long_ok then 1 else -1
            { s1 with
              open_trade := some (open_trade cfg.risk row.epoch row.open_px side
                                    row.atr row.med_atr),
              entry_cd := cfg.cooldown_bars }
          else s1
        else s1

/-- The sequence of loop states of one run over `rows` (already sorted):
the state before each bar and after the last one. -/
def engineTrace (cfg : EngCfg) (rows : List Row) : List EngState :=
  (rows.enum).scanl (fun s p => stepBar cfg p.1 p.2 s) initState

/-- The loop state after the walk over `rows` (already sorted). -/
def walkState (cfg : EngCfg) (rows : List Row) : EngState :=
  (rows.enum).foldl (fun s p => stepBar cfg p.1 p.2 s) initState

/-- End-of-data forced closure (`backtest.py` lines 110-117): mark a
still-open trade closed at the last bar's close with reason "CLOSE" and
the usual realized-R formula.  The overshoot field is left untouched. -/
def forceClose (t : Trade) (lastRow : Row) : Trade :=
  { t with state := "CLOSED", exit_ts := lastRow.epoch,
           exit_px := lastRow.close, exit_reason := "CLOSE",
           R := (lastRow.close - t.entry_px) * (t.side : ℚ) / t.r_value }

/-- Ledger of a run over an already-sorted frame: the walked ledger, plus
the forced closure of any leftover open trade. -/
def runOn (cfg : EngCfg) (rows : List Row) : List Trade :=
  match (walkState cfg rows).open_trade with
  | none => (walkState cfg rows).trades
  | some t => (walkState cfg rows).trades ++ [forceClose t (rows.getLastD default)]

/-- Ordering used by `df.sort_index()`: ascending timestamps. -/
def rowLe (a b : Row) : Prop := a.epoch ≤ b.epoch

instance : DecidableRel rowLe := fun a b =>
  inferInstanceAs (Decidable (a.epoch ≤ b.epoch))

instance : IsTotal Row rowLe := ⟨fun a b => Int.le_total a.epoch b.epoch⟩

instance : IsTrans Row rowLe := ⟨fun _ _ _ => Int.le_trans⟩

/-- The `df.sort_index(inplace=True)` step of `BacktestEngine.run`. -/
def sortBars (rows : List Row) : List Row :=
  List.insertionSort rowLe rows

/-- BacktestEngine.run reduced to the trade ledger it returns: sort the
bars by timestamp, walk them, force-close any leftover open trade. -/
def runTrades (cfg : EngCfg) (rows : List Row) : List Trade :=
  runOn cfg (sortBars rows)

/-- One OHLC bar as consumed by `wilder_atr` (`src/engine/utils.py`). -/
structure Bar where
  high : ℚ
  low : ℚ
  close : ℚ
  deriving DecidableEq

/-- True range of one bar given the previous close (`none` at the first
bar, where `close.shift(1)` is NaN).  The source takes
`pd.concat([tr1, tr2, tr3], axis=1).max(axis=1)`, and pandas `max` skips
NaN entries, so at the first bar only `high - low` survives. -/
def trueRange (prevClose : Option ℚ) (b : Bar) : ℚ :=
  match prevClose with
  | none => b.high - b.low
  | some pc => max (b.high - b.low) (max |b.high - pc| |b.low - pc|)

/-- The whole true-range series, threading each bar's close to its
successor (the `close.shift(1)` of the source). -/
def trList (prevClose : Option ℚ) : List Bar → List ℚ
  | [] => []
  | b :: rest => trueRange prevClose b :: trList (some b.close) rest

/-- Pandas `ewm(alpha, adjust=False).mean()` on a NaN-free series: the
first output equals the first input, and every later output is
`(1 - alpha) * previous_output + alpha * input`. -/
def ewmRec (alpha : ℚ) : Option ℚ → List ℚ → List ℚ
  | _, [] => []
  | none, x :: rest => x :: ewmRec alpha (some x) rest
  | some prev, x :: rest =>
      let y := (1 - alpha) * prev + alpha * x
      y :: ewmRec alpha (some y) rest

/-- wilder_atr from `src/engine/utils.py`: exponential smoothing of the
true-range series with `alpha = 1 / window`, `adjust=False`. -/
def wilder_atr (window : Nat) (bars : List Bar) : List ℚ :=
  ewmRec (1 / (window : ℚ)) none (trList none bars)

/-- Momentum vote of one lookback at position `i`
(`np.sign((close - close.shift(lb)).fillna(0.0))` in
`RegimeClassifier.compute`): zero while history is insufficient
(`shift` produces NaN, `fillna` maps it to 0, `sign 0 = 0`), otherwise
the sign of the close difference. -/
def voteAt (close : List ℚ) (lb : Nat) (i : Nat) : Int :=
  if i < lb then 0 else sign (close.getD i 0 - close.getD (i - lb) 0)

/-- Count of bullish votes (`(votes > 0).sum(axis=1)`) at position `i`. -/
def bullVotes (lbs : List Nat) (close : List ℚ) (i : Nat) : Nat :=
  (lbs.filter (fun lb => 0 < voteAt close lb i)).length

/-- Count of bearish votes (`(votes < 0).sum(axis=1)`) at position `i`. -/
def bearVotes (lbs : List Nat) (close : List ℚ) (i : Nat) : Nat :=
  (lbs.filter (fun lb => voteAt close lb i < 0)).length

/-- RegimeClassifier.compute (`src/engine/regime.py`), kept in the
vectorized shape of the source: a zero series, overwritten with 1 where
`bull_votes >= require_majority`, then overwritten with -1 where
`bear_votes >= require_majority` (the second assignment runs last). -/
def regimeCompute (lbs : List Nat) (req : Nat) (close : List ℚ) : List Int :=
  let idxs := List.range close.length
  let bull := idxs.map (bullVotes lbs close)
  let bear := idxs.map (bearVotes lbs close)
  let r0 : List Int := idxs.map (fun _ => 0)
  let r1 := List.zipWith (fun b r => if req ≤ b then (1 : Int) else r) bull r0
  List.zipWith (fun b r => if req ≤ b then (-1 : Int) else r) bear r1

/-- Month represented as the pair (year, month), the split of the
"YYYY-MM" strings of `src/run_backtest.py`. -/
def month_add (m : Int × Int) (k : Int) : Int × Int :=
  let total := m.1 * 12 + (m.2 - 1) + k
  (total / 12, total % 12 + 1)

/-- Number of days from 1970-01-01 to year `y`, month `m`, day `d` in the
proleptic Gregorian calendar (the civil-from-days inverse used by all
datetime libraries; `pd.to_datetime("YYYY-MM-01", utc=True)` lands on
this day count).  Divisions are Euclidean, matching Python's floor
division on a positive divisor. -/
def days_from_civil (y m d : Int) : Int :=
  let y1 := y - (if m ≤ 2 then 1 else 0)
  let era := y1 / 400
  let yoe := y1 - era * 400
  let doy := (153 * (m + (if 2 < m then -3 else 9)) + 2) / 5 + d - 1
  let doe := yoe * 365 + yoe / 4 - yoe / 100 + doy
  era * 146097 + doe - 719468

/-- Epoch seconds of 00:00:00 UTC on the first day of a month: the value
`pd.to_datetime(month + "-01", utc=True)` compares as in
`_run_walkforward`. -/
def monthStartEpoch (m : Int × Int) : Int :=
  86400 * days_from_civil m.1 m.2 1

/-- The test-window filter of `_run_walkforward`
(`src/run_backtest.py` lines 172-180): keep the trades whose entry
timestamp lies in `[start of first test month, start of the month one
past the last test month)`. -/
def wfFilter (test : List (Int × Int)) (ledger : List Trade) : List Trade :=
  let ts0 := monthStartEpoch (test.headD (0, 1))
  let ts1 := monthStartEpoch (month_add (test.getLastD (0, 1)) 1)
  ledger.filter (fun t => ts0 ≤ t.entry_ts ∧ t.entry_ts < ts1)

/-! ### Basic facts about quantize -/

theorem quantize_of_nonpos {tick : ℚ} (v : ℚ) (h : tick ≤ 0) :
    quantize v tick = v := by
  simp [quantize, h]

theorem quantize_of_pos {tick : ℚ} (v : ℚ) (h : 0 < tick) :
    quantize v tick = ⌊v / tick⌋ * tick := by
  simp [quantize, not_le.mpr h]

theorem quantize_le {tick : ℚ} (v : ℚ) (h : 0 < tick) : quantize v tick ≤ v := by
  rw [quantize_of_pos v h]
  calc (⌊v / tick⌋ : ℚ) * tick ≤ (v / tick) * tick :=
        mul_le_mul_of_nonneg_right (Int.floor_le _) h.le
    _ = v := div_mul_cancel₀ v h.ne'

theorem quantize_is_mult {tick : ℚ} (v : ℚ) (h : 0 < tick) :
    ∃ k : ℤ, quantize v tick = k * tick :=
  ⟨⌊v / tick⌋, quantize_of_pos v h⟩

theorem le_quantize_of_mult_lt {tick : ℚ} {v : ℚ} (h : 0 < tick) (k : ℤ)
    (hk : (k : ℚ) * tick < v) : (k : ℚ) * tick ≤ quantize v tick := by
  rw [quantize_of_pos v h]
  have hk' : (k : ℚ) ≤ v / tick := (le_div_iff₀ h).mpr hk.le
  have : k ≤ ⌊v / tick⌋ := Int.le_floor.mpr hk'
  exact mul_le_mul_of_nonneg_right (by exact_mod_cast this) h.le

/-! ### Concrete fixtures shared by scenario theorems -/

/-- RiskManager configuration with breakeven/trailing/take-profit all
disabled and no quantization (tick 0), stop multiplier 1.5. -/
def rmPlain : RiskCfg :=
  { sl_mult := 3/2, tp_mult := 0, tsl_enabled := false, be_enabled := false,
    be_threshold_R := 1/2, tsl_atr_mult := 0, step_atr_mult := 0,
    first_step_delay := 0, min_step_secs := 0, floor_from_med_mult := 0,
    tick := 0 }

/-- A short trade at entry 100 with R value 3 and current stop 103. -/
def tradeShort : Trade :=
  { side := -1, entry_ts := 0, entry_px := 100, atr_entry := 2,
    r_value := 3, sl_px := 103 }

end BacktestMirror

namespace BacktestMirror

/-- C4: a long trade opened at price 100 with ATR 2 and stop multiplier
1.5 (tick 0, so no quantization) gets R value 3 and initial stop 97; a
bar with low 96 makes check_exit close it that bar at the stop 97 with
reason "SL" (the stop is below the entry), realized R of -1 and
overshoot R of (96 - 97)/3 = -1/3. -/
theorem long_stop_exit_scenario :
    (open_trade rmPlain 0 100 1 2 5).r_value = 3 ∧
    (open_trade rmPlain 0 100 1 2 5).sl_px = 97 ∧
    (check_exit rmPlain (open_trade rmPlain 0 100 1 2 5) 60 98 98 96 (97/2)).2 = true ∧
    (check_exit rmPlain (open_trade rmPlain 0 100 1 2 5) 60 98 98 96 (97/2)).1.exit_px = 97 ∧
    (check_exit rmPlain (open_trade rmPlain 0 100 1 2 5) 60 98 98 96 (97/2)).1.exit_reason = "SL" ∧
    (check_exit rmPlain (open_trade rmPlain 0 100 1 2 5) 60 98 98 96 (97/2)).1.R = -1 ∧
    (check_exit rmPlain (open_trade rmPlain 0 100 1 2 5) 60 98 98 96 (97/2)).1.overshoot_R
      = (96 - 97)/3 := by
  with_unfolding_all decide

/-- C3: the recorded overshoot is NOT symmetric.  For a short trade with
stop 103 and a bar whose high prints at 104 (one unit beyond the stop),
`check_exit` fires and records `overshoot_R = (sl - high) * side / R =
(103 - 104) * (-1) / 3 = +1/3`, a strictly positive value, where the
symmetric convention of the long branch (negative = slippage beyond the
stop) would give -1/3. -/
theorem check_exit_short_overshoot_sign :
    (check_exit rmPlain tradeShort 5 103 104 99 100).2 = true ∧
    (check_exit rmPlain tradeShort 5 103 104 99 100).1.overshoot_R = 1/3 ∧
    ¬ (check_exit rmPlain tradeShort 5 103 104 99 100).1.overshoot_R ≤ 0 ∧
    (104 - tradeShort.sl_px) * ((tradeShort.side : ℚ)) / tradeShort.r_value = -(1/3) := by
  with_unfolding_all decide

/-- C10: when the breakeven check actually moves the stop, the new stop
is the entry price quantized down to the tick grid; with a positive tick
it is at most the entry price, and for a long whose entry price is not on
the tick grid (expressed as `quantize entry tick ≠ entry`) it is strictly
below the entry price. -/
theorem be_check_sl_cases (rm : RiskCfg) (t : Trade) (ts : Int) (px : ℚ) :
    (be_check rm t ts px).sl_px = t.sl_px ∨
    (be_check rm t ts px).sl_px = quantize t.entry_px rm.tick := by
  unfold be_check
  split
  · exact Or.inl rfl
  · dsimp only
    split
    · split
      · exact Or.inr rfl
      · exact Or.inl rfl
    · exact Or.inl rfl

theorem be_promotion_capped_at_entry (rm : RiskCfg) (t : Trade) (ts : Int)
    (px : ℚ) (hmove : (be_check rm t ts px).sl_px ≠ t.sl_px) :
    (be_check rm t ts px).sl_px = quantize t.entry_px rm.tick ∧
    (0 < rm.tick → (be_check rm t ts px).sl_px ≤ t.entry_px) ∧
    (0 < rm.tick → t.side = 1 → quantize t.entry_px rm.tick ≠ t.entry_px →
      (be_check rm t ts px).sl_px < t.entry_px) := by
  have hq : (be_check rm t ts px).sl_px = quantize t.entry_px rm.tick := by
    rcases be_check_sl_cases rm t ts px with h | h
    · exact absurd h hmove
    · exact h
  refine ⟨hq, fun htick => ?_, fun htick _ hne => ?_⟩
  · rw [hq]; exact quantize_le _ htick
  · rw [hq]; exact lt_of_le_of_ne (quantize_le _ htick) hne

/-- Witness for C10: tick 1/2, entry 100.3, long trade with stop 97 and
price far enough above entry; the breakeven check promotes the stop to
quantize(100.3, 0.5) = 100 < 100.3. -/
def rmTick : RiskCfg :=
  { sl_mult := 3/2, tp_mult := 0, tsl_enabled := true, be_enabled := true,
    be_threshold_R := 1/2, tsl_atr_mult := 1, step_atr_mult := 1,
    first_step_delay := 0, min_step_secs := 0, floor_from_med_mult := 0,
    tick := 1/2 }

def tradeLongOffGrid : Trade :=
  { side := 1, entry_ts := 0, entry_px := 1003/10, atr_entry := 2,
    r_value := 3, sl_px := 97 }

/-! ### Stop monotonicity (C1) -/

/-- The per-bar inputs the engine feeds to the risk manager while a trade
is open: the bar timestamp and the close/atr/median-atr columns
(`backtest.py` lines 80-82). -/
structure RiskBar where
  ts : Int
  close : ℚ
  atr : ℚ
  med_atr : ℚ

/-- One bar of open-trade risk management, in engine order: breakeven
check first, then the trailing step (`backtest.py` lines 78-82). -/
def manage_bar (rm : RiskCfg) (t : Trade) (b : RiskBar) : Trade :=
  maybe_step_trailing rm (be_check rm t b.ts b.close) b.ts b.close b.atr b.med_atr

theorem be_check_eq_or_move (rm : RiskCfg) (t : Trade) (ts : Int) (px : ℚ) :
    be_check rm t ts px = t ∨
    (((t.side = 1 ∧ t.sl_px < quantize t.entry_px rm.tick) ∨
      (t.side = -1 ∧ quantize t.entry_px rm.tick < t.sl_px)) ∧
     be_check rm t ts px =
       { t with sl_px := quantize t.entry_px rm.tick, last_tsl_step_ts := ts }) := by
  unfold be_check
  split
  · exact Or.inl rfl
  · dsimp only
    split
    · split
      · next hcond => exact Or.inr ⟨hcond, rfl⟩
      · exact Or.inl rfl
    · exact Or.inl rfl

theorem tsl_eq_or_move (rm : RiskCfg) (t : Trade) (ts : Int)
    (px atr_now med_atr : ℚ) :
    maybe_step_trailing rm t ts px atr_now med_atr = t ∨
    ∃ new_sl : ℚ,
      ((t.side = 1 ∧ t.sl_px < new_sl) ∨ (t.side ≠ 1 ∧ new_sl < t.sl_px)) ∧
      maybe_step_trailing rm t ts px atr_now med_atr =
        { t with sl_px := quantize new_sl rm.tick, last_tsl_step_ts := ts } := by
  unfold maybe_step_trailing
  split
  · exact Or.inl rfl
  · dsimp only
    split
    · next hside =>
      split
      · exact Or.inl rfl
      · split
        · exact Or.inl rfl
        · next hlt =>
          exact Or.inr ⟨_, Or.inl ⟨hside, not_le.mp hlt⟩, rfl⟩
    · next hside =>
      split
      · exact Or.inl rfl
      · split
        · exact Or.inl rfl
        · next hlt =>
          exact Or.inr ⟨_, Or.inr ⟨hside, not_le.mp hlt⟩, rfl⟩

/-- If the current stop is on the tick grid (or there is no grid), any
strictly higher candidate keeps the quantized stop at or above it. -/
theorem sl_le_quantize_of_lt (rm : RiskCfg) {sl v : ℚ}
    (hal : 0 < rm.tick → ∃ k : ℤ, sl = k * rm.tick) (h : sl < v) :
    sl ≤ quantize v rm.tick := by
  by_cases htick : 0 < rm.tick
  · obtain ⟨k, hk⟩ := hal htick
    rw [hk]
    exact le_quantize_of_mult_lt htick k (hk ▸ h)
  · rw [quantize_of_nonpos _ (not_lt.mp htick)]
    exact h.le

/-- Quantizing never raises a value below the current stop above it. -/
theorem quantize_le_of_lt (rm : RiskCfg) {sl v : ℚ} (h : v < sl) :
    quantize v rm.tick ≤ sl := by
  by_cases htick : 0 < rm.tick
  · exact le_trans (quantize_le _ htick) h.le
  · rw [quantize_of_nonpos _ (not_lt.mp htick)]
    exact h.le

/-- Generic invariant propagation along `List.scanl`. -/
theorem mem_scanl_inv {α β : Type _} (f : β → α → β) (Inv : β → Prop)
    (hf : ∀ s x, Inv s → Inv (f s x)) :
    ∀ (l : List α) (s : β), Inv s → ∀ u ∈ List.scanl f s l, Inv u := by
  intro l
  induction l with
  | nil =>
    intro s hs u hu
    simp only [List.scanl, List.mem_singleton] at hu
    exact hu ▸ hs
  | cons x xs ih =>
    intro s hs u hu
    rw [List.scanl] at hu
    rcases List.mem_cons.mp hu with h | h
    · exact h ▸ hs
    · exact ih (f s x) (hf s x hs) u h

/-- Generic invariant propagation along `List.foldl`. -/
theorem foldl_inv {α β : Type _} (f : β → α → β) (Inv : β → Prop)
    (hf : ∀ s x, Inv s → Inv (f s x)) :
    ∀ (l : List α) (s : β), Inv s → Inv (List.foldl f s l) := by
  intro l
  induction l with
  | nil => intro s hs; exact hs
  | cons x xs ih => intro s hs; exact ih (f s x) (hf s x hs)

/-- An invariant-strengthened chain property of `List.scanl`: if every
step preserves `Inv` and relates a state to its successor by `P`, the
whole scan is a `P`-chain. -/
theorem chain'_scanl_inv {α β : Type _} (f : β → α → β) (Inv : β → Prop)
    (P : β → β → Prop) (hf : ∀ s x, Inv s → Inv (f s x))
    (hP : ∀ s x, Inv s → P s (f s x)) :
    ∀ (l : List α) (s : β), Inv s → List.Chain' P (List.scanl f s l) := by
  intro l
  induction l with
  | nil =>
    intro s _
    simp only [List.scanl]
    exact List.chain'_singleton s
  | cons x xs ih =>
    intro s hs
    rw [List.scanl, List.chain'_cons']
    refine ⟨?_, ih (f s x) (hf s x hs)⟩
    intro y hy
    cases xs <;> simp only [List.scanl, List.head?_cons, Option.mem_def,
      Option.some.injEq] at hy <;> exact hy ▸ hP s x hs

/-- Tick alignment of the breakeven step, plus shape preservation. -/
theorem be_check_inv (rm : RiskCfg) (t : Trade) (ts : Int) (px : ℚ)
    (hal : 0 < rm.tick → ∃ k : ℤ, t.sl_px = k * rm.tick) :
    (0 < rm.tick → ∃ k : ℤ, (be_check rm t ts px).sl_px = k * rm.tick) ∧
    (be_check rm t ts px).side = t.side ∧
    (t.side : ℚ) * t.sl_px ≤ (t.side : ℚ) * (be_check rm t ts px).sl_px := by
  rcases be_check_eq_or_move rm t ts px with h | ⟨hcond, h⟩
  · rw [h]; exact ⟨hal, rfl, le_refl _⟩
  · rw [h]
    refine ⟨fun htick => ⟨⌊t.entry_px / rm.tick⌋, quantize_of_pos _ htick⟩, rfl, ?_⟩
    rcases hcond with ⟨hside, hlt⟩ | ⟨hside, hlt⟩ <;> rw [hside] <;> push_cast <;> simpa using hlt.le

/-- Tick alignment and favor-direction monotonicity of the trailing step,
for the sides the engine actually uses. -/
theorem tsl_inv (rm : RiskCfg) (t : Trade) (ts : Int) (px atr_now med_atr : ℚ)
    (hal : 0 < rm.tick → ∃ k : ℤ, t.sl_px = k * rm.tick) :
    (0 < rm.tick → ∃ k : ℤ, (maybe_step_trailing rm t ts px atr_now med_atr).sl_px = k * rm.tick) ∧
    (maybe_step_trailing rm t ts px atr_now med_atr).side = t.side ∧
    ((t.side = 1 ∨ t.side = -1) →
      (t.side : ℚ) * t.sl_px ≤
        (t.side : ℚ) * (maybe_step_trailing rm t ts px atr_now med_atr).sl_px) := by
  rcases tsl_eq_or_move rm t ts px atr_now med_atr with h | ⟨new_sl, hcond, h⟩
  · rw [h]; exact ⟨hal, rfl, fun _ => le_refl _⟩
  · rw [h]
    refine ⟨?_, rfl, ?_⟩
    · intro htick
      exact ⟨⌊new_sl / rm.tick⌋, quantize_of_pos _ htick⟩
    · intro hs
      rcases hcond with ⟨hside, hlt⟩ | ⟨hside, hlt⟩
      · rw [hside]
        push_cast
        simpa using sl_le_quantize_of_lt rm hal hlt
      · have hside' : t.side = -1 := by
          rcases hs with h1 | h1
          · exact absurd h1 hside
          · exact h1
        rw [hside']
        push_cast
        simpa using quantize_le_of_lt rm hlt

/-- C1: along any sequence of per-bar breakeven checks and trailing steps
applied to a trade created by `open_trade`, the stop price moves only in
the trade's favor: for a long (side 1) it never decreases, for a short
(side -1) it never increases, quantization included. -/
theorem stop_monotone_in_favor (rm : RiskCfg) (ts : Int) (px : ℚ)
    (side : Int) (atr_now med_atr : ℚ) (bars : List RiskBar)
    (hs : side = 1 ∨ side = -1) :
    List.Chain' (fun a b : Trade => (side : ℚ) * a.sl_px ≤ (side : ℚ) * b.sl_px)
      (List.scanl (manage_bar rm) (open_trade rm ts px side atr_now med_atr) bars) := by
  refine chain'_scanl_inv (manage_bar rm)
    (fun t : Trade =>
      (0 < rm.tick → ∃ k : ℤ, t.sl_px = k * rm.tick) ∧ t.side = side)
    _ ?_ ?_ bars _ ⟨?_, rfl⟩
  · intro t b ⟨hal, hside⟩
    obtain ⟨hal1, hside1, _⟩ := be_check_inv rm t b.ts b.close hal
    obtain ⟨hal2, hside2, _⟩ :=
      tsl_inv rm (be_check rm t b.ts b.close) b.ts b.close b.atr b.med_atr hal1
    exact ⟨hal2, by rw [manage_bar, hside2, hside1, hside]⟩
  · intro t b ⟨hal, hside⟩
    obtain ⟨hal1, hside1, hfav1⟩ := be_check_inv rm t b.ts b.close hal
    obtain ⟨hal2, hside2, hfav2⟩ :=
      tsl_inv rm (be_check rm t b.ts b.close) b.ts b.close b.atr b.med_atr hal1
    have hs' : (be_check rm t b.ts b.close).side = 1 ∨
        (be_check rm t b.ts b.close).side = -1 := by
      rw [hside1, hside]; exact hs
    have h2 := hfav2 hs'
    rw [hside1, hside] at h2
    rw [hside] at hfav1
    show (side : ℚ) * t.sl_px ≤ (side : ℚ) * (manage_bar rm t b).sl_px
    rw [manage_bar]
    exact le_trans hfav1 h2
  · intro htick
    exact ⟨⌊(if side = 1 then px - atr_now * rm.sl_mult
             else px + atr_now * rm.sl_mult) / rm.tick⌋, by
      simp only [open_trade]
      exact quantize_of_pos _ htick⟩

/-- Witness for C1: a concrete long trade walked through one managed bar
(which moves the stop from 97 to 103 via breakeven then trailing). -/
theorem stop_monotone_in_favor_witness :
    ((1 : Int) = 1 ∨ (1 : Int) = -1) ∧
    List.Chain' (fun a b : Trade => ((1 : Int) : ℚ) * a.sl_px ≤ ((1 : Int) : ℚ) * b.sl_px)
      (List.scanl (manage_bar rmTick) (open_trade rmTick 0 100 1 2 2)
        [{ ts := 60, close := 105, atr := 2, med_atr := 2 }]) :=
  ⟨Or.inl rfl, stop_monotone_in_favor rmTick 0 100 1 2 2
    [{ ts := 60, close := 105, atr := 2, med_atr := 2 }] (Or.inl rfl)⟩

theorem be_promotion_capped_at_entry_witness :
    ((be_check rmTick tradeLongOffGrid 60 110).sl_px ≠ tradeLongOffGrid.sl_px) ∧
    ((be_check rmTick tradeLongOffGrid 60 110).sl_px
        = quantize tradeLongOffGrid.entry_px rmTick.tick ∧
     (0 < rmTick.tick → (be_check rmTick tradeLongOffGrid 60 110).sl_px
        ≤ tradeLongOffGrid.entry_px) ∧
     (0 < rmTick.tick → tradeLongOffGrid.side = 1 →
        quantize tradeLongOffGrid.entry_px rmTick.tick ≠ tradeLongOffGrid.entry_px →
        (be_check rmTick tradeLongOffGrid 60 110).sl_px < tradeLongOffGrid.entry_px)) :=
  ⟨by with_unfolding_all decide,
   be_promotion_capped_at_entry rmTick tradeLongOffGrid 60 110 (by with_unfolding_all decide)⟩

/-! ### Engine loop invariants (C2, C5) -/

theorem stop_hit_reason (t : Trade) (bh bl : ℚ) (x : ℚ × ℚ × String)
    (hx : stop_hit t bh bl = some x) : x.2.2 = "TSL" ∨ x.2.2 = "SL" := by
  unfold stop_hit at hx
  split at hx
  · split at hx
    · injection hx with hx
      subst hx
      dsimp only
      split
      · exact Or.inl rfl
      · exact Or.inr rfl
    · exact absurd hx (by simp)
  · split at hx
    · injection hx with hx
      subst hx
      dsimp only
      split
      · exact Or.inl rfl
      · exact Or.inr rfl
    · exact absurd hx (by simp)

theorem exit_info_reason (rm : RiskCfg) (t : Trade) (bh bl : ℚ)
    (x : ℚ × ℚ × String) (hx : exit_info rm t bh bl = some x) :
    x.2.2 = "TSL" ∨ x.2.2 = "SL" ∨ x.2.2 = "TP" := by
  unfold exit_info at hx
  split at hx
  · next heq =>
    injection hx with hx
    subst hx
    rcases stop_hit_reason t bh bl _ heq with h | h
    · exact Or.inl h
    · exact Or.inr (Or.inl h)
  · split at hx
    · dsimp only at hx
      split at hx
      · injection hx with hx
        subst hx
        exact Or.inr (Or.inr rfl)
      · exact absurd hx (by simp)
    · exact absurd hx (by simp)

theorem check_exit_shape (rm : RiskCfg) (t : Trade) (ts : Int)
    (bo bh bl bc : ℚ) :
    ((check_exit rm t ts bo bh bl bc).2 = false ∧
     (check_exit rm t ts bo bh bl bc).1 = t) ∨
    ((check_exit rm t ts bo bh bl bc).2 = true ∧
     (check_exit rm t ts bo bh bl bc).1.state = "CLOSED" ∧
     (check_exit rm t ts bo bh bl bc).1.exit_reason ≠ "CLOSE") := by
  unfold check_exit
  cases hx : exit_info rm t bh bl with
  | none => exact Or.inl ⟨rfl, rfl⟩
  | some x =>
    obtain ⟨px, ov, reason⟩ := x
    refine Or.inr ⟨rfl, rfl, ?_⟩
    show reason ≠ "CLOSE"
    rcases exit_info_reason rm t bh bl _ hx with h | h | h <;>
      simp only at h <;> rw [h] <;> decide


/-! ### Engine loop invariants (C2, C5) -/

/-- All trades the engine currently holds in the OPEN state: those in the
ledger plus the open slot. -/
def openTradeCount (s : EngState) : Nat :=
  ((s.trades ++ s.open_trade.toList).filter (fun t => t.state = "OPEN")).length

/-- Ledger invariant maintained by the loop: every appended trade is
CLOSED, and its exit reason was set by check_exit (never "CLOSE"). -/
def ledger_ok (s : EngState) : Prop :=
  ∀ t ∈ s.trades, t.state = "CLOSED" ∧ t.exit_reason ≠ "CLOSE"

theorem stepBar_shape (cfg : EngCfg) (i : Nat) (row : Row) (s : EngState) :
    (stepBar cfg i row s).trades = s.trades ∨
    ∃ t, (stepBar cfg i row s).trades = s.trades ++ [t] ∧
      t.state = "CLOSED" ∧ t.exit_reason ≠ "CLOSE" ∧
      s.open_trade ≠ none ∧ (stepBar cfg i row s).open_trade = none := by
  unfold stepBar
  split
  · exact Or.inl rfl
  · dsimp only
    cases hso : s.open_trade with
    | some t =>
      dsimp only
      rcases check_exit_shape cfg.risk
          (maybe_step_trailing cfg.risk (be_check cfg.risk t row.epoch row.close)
            row.epoch row.close row.atr row.med_atr)
          row.epoch row.open_px row.high row.low row.close with
        ⟨hb, _⟩ | ⟨hb, hstate, hreason⟩
      · rw [hb]
        exact Or.inl rfl
      · rw [hb]
        exact Or.inr ⟨_, rfl, hstate, hreason, by simp [hso], rfl⟩
    | none =>
      dsimp only
      split
      · split
        · exact Or.inl rfl
        · exact Or.inl rfl
      · exact Or.inl rfl

theorem stepBar_ledger_ok (cfg : EngCfg) (i : Nat) (row : Row) (s : EngState)
    (hs : ledger_ok s) : ledger_ok (stepBar cfg i row s) := by
  rcases stepBar_shape cfg i row s with h | ⟨t, h, hstate, hreason, _, _⟩ <;>
    intro u hu <;> rw [h] at hu
  · exact hs u hu
  · rcases List.mem_append.mp hu with h1 | h1
    · exact hs u h1
    · rw [List.mem_singleton] at h1
      exact h1 ▸ ⟨hstate, hreason⟩

theorem openTradeCount_le_one (s : EngState)
    (hs : ∀ t ∈ s.trades, t.state = "CLOSED") : openTradeCount s ≤ 1 := by
  unfold openTradeCount
  rw [List.filter_append, List.length_append]
  have h1 : (s.trades.filter (fun t => t.state = "OPEN")).length = 0 := by
    rw [List.length_eq_zero, List.filter_eq_nil_iff]
    intro a ha
    rw [hs a ha]
    decide
  rw [h1, Nat.zero_add]
  calc (s.open_trade.toList.filter (fun t => t.state = "OPEN")).length
      ≤ s.open_trade.toList.length := List.length_filter_le _ _
    _ ≤ 1 := by cases s.open_trade <;> simp

/-- Engine configuration fixture: no warmup, no cooldown, long-only,
plain risk settings. -/
def engCfgFix : EngCfg :=
  { warmup_bars := 0, cooldown_bars := 0, direction := "long", risk := rmPlain }

/-- A bar whose signal columns satisfy the long entry gate. -/
def rowEntry : Row :=
  { epoch := 0, open_px := 100, high := 100, low := 100, close := 101,
    atr := 2, med_atr := 2, squeeze := 1, rel_up := 0, rel_dn := 0,
    regime := 1, long_trig := 1, short_trig := 0 }

/-- C2: throughout a run, the engine state never holds more than one OPEN
trade (every ledger entry is CLOSED and the open slot holds at most one
trade), each bar either leaves the ledger unchanged or appends exactly
one trade that is CLOSED (clearing the open slot), and every trade in the
returned ledger is CLOSED. -/
theorem run_at_most_one_open (cfg : EngCfg) (rows : List Row) :
    (∀ s ∈ engineTrace cfg rows,
        openTradeCount s ≤ 1 ∧ ∀ t ∈ s.trades, t.state = "CLOSED") ∧
    List.Chain' (fun a b : EngState => b.trades = a.trades ∨
        ∃ t, b.trades = a.trades ++ [t] ∧ t.state = "CLOSED" ∧
          a.open_trade ≠ none ∧ b.open_trade = none)
      (engineTrace cfg rows) ∧
    (∀ t ∈ runTrades cfg rows, t.state = "CLOSED") := by
  have hInv : ∀ (s : EngState) (p : Nat × Row),
      ledger_ok s → ledger_ok (stepBar cfg p.1 p.2 s) :=
    fun s p hs => stepBar_ledger_ok cfg p.1 p.2 s hs
  have hInit : ledger_ok initState := by
    intro t ht
    simp [initState] at ht
  refine ⟨?_, ?_, ?_⟩
  · intro s hsmem
    have hok := mem_scanl_inv _ ledger_ok hInv rows.enum initState hInit s hsmem
    exact ⟨openTradeCount_le_one s (fun t ht => (hok t ht).1),
           fun t ht => (hok t ht).1⟩
  · refine chain'_scanl_inv _ ledger_ok _ hInv ?_ rows.enum initState hInit
    intro s p _
    rcases stepBar_shape cfg p.1 p.2 s with h | ⟨t, h, hst, _, hne, hnone⟩
    · exact Or.inl h
    · exact Or.inr ⟨t, h, hst, hne, hnone⟩
  · intro t ht
    have hws : ledger_ok (walkState cfg (sortBars rows)) :=
      foldl_inv _ ledger_ok hInv _ initState hInit
    unfold runTrades runOn at ht
    cases hso : (walkState cfg (sortBars rows)).open_trade with
    | none =>
      rw [hso] at ht
      exact (hws t ht).1
    | some u =>
      rw [hso] at ht
      dsimp only at ht
      rcases List.mem_append.mp ht with h1 | h1
      · exact (hws t h1).1
      · rw [List.mem_singleton] at h1
        subst h1
        rfl

/-- Witness for C2 at a concrete one-bar run. -/
theorem run_at_most_one_open_witness :
    (initState ∈ engineTrace engCfgFix [rowEntry]) ∧
    (openTradeCount initState ≤ 1 ∧ ∀ t ∈ initState.trades, t.state = "CLOSED") :=
  ⟨by with_unfolding_all decide,
   (run_at_most_one_open engCfgFix [rowEntry]).1 initState
     (by with_unfolding_all decide)⟩

/-- C5: when a trade is still open after the walk, the run closes it at
the final bar's close with reason "CLOSE" and the realized-R formula, and
that trade appears exactly once in the returned ledger. -/
theorem end_of_data_forced_close (cfg : EngCfg) (rows : List Row) (t : Trade)
    (hopen : (walkState cfg (sortBars rows)).open_trade = some t) :
    runTrades cfg rows =
      (walkState cfg (sortBars rows)).trades ++
        [forceClose t ((sortBars rows).getLastD default)] ∧
    (forceClose t ((sortBars rows).getLastD default)).state = "CLOSED" ∧
    (forceClose t ((sortBars rows).getLastD default)).exit_reason = "CLOSE" ∧
    (forceClose t ((sortBars rows).getLastD default)).exit_px =
      ((sortBars rows).getLastD default).close ∧
    (forceClose t ((sortBars rows).getLastD default)).R =
      (((sortBars rows).getLastD default).close - t.entry_px) * (t.side : ℚ)
        / t.r_value ∧
    (runTrades cfg rows).count
      (forceClose t ((sortBars rows).getLastD default)) = 1 := by
  have hrun : runTrades cfg rows =
      (walkState cfg (sortBars rows)).trades ++
        [forceClose t ((sortBars rows).getLastD default)] := by
    unfold runTrades runOn
    rw [hopen]
  refine ⟨hrun, rfl, rfl, rfl, rfl, ?_⟩
  rw [hrun, List.count_append]
  have hws : ledger_ok (walkState cfg (sortBars rows)) :=
    foldl_inv _ ledger_ok
      (fun s p hs => stepBar_ledger_ok cfg p.1 p.2 s hs) _ initState
      (by intro u hu; simp [initState] at hu)
  have hnotmem :
      forceClose t ((sortBars rows).getLastD default) ∉
        (walkState cfg (sortBars rows)).trades := by
    intro hmem
    exact (hws _ hmem).2 rfl
  rw [List.count_eq_zero.mpr hnotmem]
  simp

/-- Witness for C5: the one-bar run that opens a long trade on its only
bar and force-closes it at that bar's close. -/
theorem end_of_data_forced_close_witness :
    ((walkState engCfgFix (sortBars [rowEntry])).open_trade =
      some (open_trade rmPlain 0 100 1 2 2)) ∧
    (runTrades engCfgFix [rowEntry] =
      (walkState engCfgFix (sortBars [rowEntry])).trades ++
        [forceClose (open_trade rmPlain 0 100 1 2 2)
          ((sortBars [rowEntry]).getLastD default)] ∧
     (forceClose (open_trade rmPlain 0 100 1 2 2)
        ((sortBars [rowEntry]).getLastD default)).state = "CLOSED" ∧
     (forceClose (open_trade rmPlain 0 100 1 2 2)
        ((sortBars [rowEntry]).getLastD default)).exit_reason = "CLOSE" ∧
     (forceClose (open_trade rmPlain 0 100 1 2 2)
        ((sortBars [rowEntry]).getLastD default)).exit_px =
       ((sortBars [rowEntry]).getLastD default).close ∧
     (forceClose (open_trade rmPlain 0 100 1 2 2)
        ((sortBars [rowEntry]).getLastD default)).R =
       (((sortBars [rowEntry]).getLastD default).close -
           (open_trade rmPlain 0 100 1 2 2).entry_px) *
         ((open_trade rmPlain 0 100 1 2 2).side : ℚ) /
         (open_trade rmPlain 0 100 1 2 2).r_value ∧
     (runTrades engCfgFix [rowEntry]).count
       (forceClose (open_trade rmPlain 0 100 1 2 2)
         ((sortBars [rowEntry]).getLastD default)) = 1) :=
  ⟨by with_unfolding_all decide,
   end_of_data_forced_close engCfgFix [rowEntry] (open_trade rmPlain 0 100 1 2 2)
     (by with_unfolding_all decide)⟩



/-! ### Input handling (C6) -/

theorem sortBars_idem (rows : List Row) :
    sortBars (sortBars rows) = sortBars rows :=
  List.Sorted.insertionSort_eq (List.sorted_insertionSort rowLe rows)

/-- C6 (amended): the run never aborts on an empty or non-ascending bar
sequence.  An empty input yields an empty ledger, and any input is first
sorted by timestamp (`df.sort_index`), so the run behaves exactly as on
the sorted sequence. -/
theorem run_sorts_and_never_aborts (cfg : EngCfg) :
    runTrades cfg [] = [] ∧
    ∀ rows : List Row, runTrades cfg rows = runTrades cfg (sortBars rows) := by
  constructor
  · rfl
  · intro rows
    unfold runTrades
    rw [sortBars_idem]

/-- The second bar fixture, timestamped after `rowEntry` and triggering
nothing. -/
def rowLater : Row :=
  { epoch := 60, open_px := 101, high := 101, low := 99, close := 102,
    atr := 2, med_atr := 2, squeeze := 0, rel_up := 0, rel_dn := 0,
    regime := 0, long_trig := 0, short_trig := 0 }

/-- Counterexample to C6 as stated: on the out-of-order input
`[rowLater, rowEntry]` the run does not abort; it sorts the bars, walks
them, and returns a one-trade ledger, and on the empty input it returns
an empty ledger. -/
theorem run_completes_on_unsorted_input :
    sortBars [rowLater, rowEntry] = [rowEntry, rowLater] ∧
    runTrades engCfgFix [rowLater, rowEntry] =
      [forceClose (open_trade rmPlain 0 100 1 2 2) rowLater] ∧
    runTrades engCfgFix [] = [] := by
  with_unfolding_all decide

/-! ### Wilder ATR (C7) -/

instance : Inhabited Bar := ⟨{ high := 0, low := 0, close := 0 }⟩

theorem trList_length : ∀ (bars : List Bar) (pc : Option ℚ),
    (trList pc bars).length = bars.length := by
  intro bars
  induction bars with
  | nil => intro pc; rfl
  | cons b rest ih => intro pc; simp [trList, ih]

theorem ewmRec_length (a : ℚ) : ∀ (l : List ℚ) (prev : Option ℚ),
    (ewmRec a prev l).length = l.length := by
  intro l
  induction l with
  | nil => intro prev; cases prev <;> rfl
  | cons x rest ih =>
    intro prev
    cases prev <;> simp [ewmRec, ih]

theorem trList_take : ∀ (n : Nat) (bars : List Bar) (pc : Option ℚ),
    trList pc (bars.take n) = (trList pc bars).take n := by
  intro n
  induction n with
  | zero => intro bars pc; rfl
  | succ m ih =>
    intro bars pc
    cases bars with
    | nil => rfl
    | cons b rest => simp [trList, List.take_succ_cons, ih]

theorem ewmRec_take (a : ℚ) : ∀ (n : Nat) (l : List ℚ) (prev : Option ℚ),
    ewmRec a prev (l.take n) = (ewmRec a prev l).take n := by
  intro n
  induction n with
  | zero =>
    intro l prev
    cases l with
    | nil => cases prev <;> rfl
    | cons x rest => cases prev <;> rfl
  | succ m ih =>
    intro l prev
    cases l with
    | nil => cases prev <;> rfl
    | cons x rest =>
      cases prev <;> simp [ewmRec, List.take_succ_cons, ih]

theorem ewmRec_getD (a : ℚ) : ∀ (l : List ℚ) (prev : Option ℚ) (i : Nat),
    i + 1 < l.length →
    (ewmRec a prev l).getD (i+1) 0 =
      (1 - a) * (ewmRec a prev l).getD i 0 + a * l.getD (i+1) 0 := by
  intro l
  induction l with
  | nil => intro prev i h; simp at h
  | cons x rest ih =>
    intro prev i h
    cases rest with
    | nil => simp at h
    | cons z rest2 =>
      cases i with
      | zero =>
        cases prev <;> simp [ewmRec, List.getD_cons_succ, List.getD_cons_zero]
      | succ j =>
        have h' : j + 1 < (z :: rest2).length := by
          simpa using Nat.lt_of_succ_lt_succ h
        cases prev <;>
          simpa [ewmRec, List.getD_cons_succ] using ih (some _) j h'

theorem trList_getD : ∀ (bars : List Bar) (pc : Option ℚ) (i : Nat),
    i + 1 < bars.length →
    (trList pc bars).getD (i+1) 0 =
      trueRange (some ((bars.getD i default).close)) (bars.getD (i+1) default) := by
  intro bars
  induction bars with
  | nil => intro pc i h; simp at h
  | cons b rest ih =>
    intro pc i h
    cases rest with
    | nil => simp at h
    | cons c rest2 =>
      cases i with
      | zero => simp [trList, List.getD_cons_succ, List.getD_cons_zero]
      | succ j =>
        have h' : j + 1 < (c :: rest2).length := by
          simpa using Nat.lt_of_succ_lt_succ h
        simpa [trList, List.getD_cons_succ] using ih (some b.close) j h'

/-- C7 (amended): the Wilder ATR series has one value per bar, its first
value is the first bar's high minus low (pandas' rowwise max skips the
NaN prev-close candidates, so the value is defined, not NaN), every later
value follows the recursion `ATR[i+1] = (1 - 1/w)*ATR[i] + (1/w)*TR[i+1]`
with the full three-candidate true range, and the series has no
look-ahead: the ATR of a prefix is the prefix of the ATR. -/
theorem wilder_atr_recursion (w : Nat) (bars : List Bar) (hw : 0 < w) :
    (wilder_atr w bars).length = bars.length ∧
    (∀ b0 rest, bars = b0 :: rest →
        (wilder_atr w bars).headD 0 = b0.high - b0.low) ∧
    (∀ i, i + 1 < bars.length →
        (wilder_atr w bars).getD (i+1) 0 =
          (1 - 1/(w:ℚ)) * (wilder_atr w bars).getD i 0 +
          (1/(w:ℚ)) * trueRange (some ((bars.getD i default).close))
            (bars.getD (i+1) default)) ∧
    (∀ n, wilder_atr w (bars.take n) = (wilder_atr w bars).take n) := by
  refine ⟨?_, ?_, ?_, ?_⟩
  · rw [wilder_atr, ewmRec_length, trList_length]
  · intro b0 rest hb
    subst hb
    rfl
  · intro i h
    have h1 : i + 1 < (trList (none : Option ℚ) bars).length := by
      rw [trList_length]; exact h
    rw [wilder_atr, ewmRec_getD (1/(w:ℚ)) (trList none bars) none i h1,
        trList_getD bars none i h]
  · intro n
    rw [wilder_atr, wilder_atr, trList_take, ewmRec_take]

/-- Witness for C7 at window 2 over two concrete bars. -/
theorem wilder_atr_recursion_witness :
    0 < 2 ∧
    ((wilder_atr 2 [{ high := 10, low := 7, close := 9 },
        { high := 12, low := 8, close := 11 }]).length =
      ([{ high := 10, low := 7, close := 9 },
        { high := 12, low := 8, close := 11 }] : List Bar).length ∧
     (∀ b0 rest, ([{ high := 10, low := 7, close := 9 },
          { high := 12, low := 8, close := 11 }] : List Bar) = b0 :: rest →
        (wilder_atr 2 [{ high := 10, low := 7, close := 9 },
          { high := 12, low := 8, close := 11 }]).headD 0 = b0.high - b0.low) ∧
     (∀ i, i + 1 < ([{ high := 10, low := 7, close := 9 },
          { high := 12, low := 8, close := 11 }] : List Bar).length →
        (wilder_atr 2 [{ high := 10, low := 7, close := 9 },
          { high := 12, low := 8, close := 11 }]).getD (i+1) 0 =
          (1 - 1/((2:ℕ):ℚ)) * (wilder_atr 2 [{ high := 10, low := 7, close := 9 },
            { high := 12, low := 8, close := 11 }]).getD i 0 +
          (1/((2:ℕ):ℚ)) * trueRange
            (some ((([{ high := 10, low := 7, close := 9 },
              { high := 12, low := 8, close := 11 }] : List Bar).getD i default).close))
            (([{ high := 10, low := 7, close := 9 },
              { high := 12, low := 8, close := 11 }] : List Bar).getD (i+1) default)) ∧
     (∀ n, wilder_atr 2 (([{ high := 10, low := 7, close := 9 },
          { high := 12, low := 8, close := 11 }] : List Bar).take n) =
        (wilder_atr 2 [{ high := 10, low := 7, close := 9 },
          { high := 12, low := 8, close := 11 }]).take n)) :=
  ⟨by decide,
   wilder_atr_recursion 2 [{ high := 10, low := 7, close := 9 },
     { high := 12, low := 8, close := 11 }] (by decide)⟩

/-- Counterexample to C7 as stated: the ATR of a one-bar series is the
defined value `high - low` (3 for this bar), not an unavailable value. -/
theorem wilder_atr_first_bar_defined :
    wilder_atr 14 [{ high := 10, low := 7, close := 9 }] = [3] ∧
    (wilder_atr 14 [{ high := 10, low := 7, close := 9 }]).length = 1 := by
  with_unfolding_all decide



/-! ### Regime classification (C8) -/

/-- C8 (amended): per bar, the regime is -1 whenever the bearish vote
count reaches the majority threshold (the bearish assignment runs last
and overwrites the bullish one), else +1 when the bullish count reaches
the threshold, else 0. -/
theorem regime_bear_overrides (lbs : List Nat) (req : Nat) (close : List ℚ)
    (i : Nat) (hi : i < close.length) :
    (regimeCompute lbs req close).getD i 0 =
      if req ≤ bearVotes lbs close i then (-1 : Int)
      else if req ≤ bullVotes lbs close i then 1 else 0 := by
  unfold regimeCompute
  simp only [List.getD_eq_getElem?_getD, List.getElem?_zipWith',
    List.getElem?_map, List.getElem?_range, hi, if_pos]
  by_cases hbear : req ≤ bearVotes lbs close i <;>
    by_cases hbull : req ≤ bullVotes lbs close i <;>
      simp [hbear, hbull]



/-- Witness for C8 at the concrete series [10, 20, 15] with lookbacks
[1, 2] and majority 1, bar 2. -/
theorem regime_bear_overrides_witness :
    (2 < ([10, 20, 15] : List ℚ).length) ∧
    (regimeCompute [1, 2] 1 [10, 20, 15]).getD 2 0 =
      (if 1 ≤ bearVotes [1, 2] [10, 20, 15] 2 then (-1 : Int)
       else if 1 ≤ bullVotes [1, 2] [10, 20, 15] 2 then 1 else 0) :=
  ⟨by decide, regime_bear_overrides [1, 2] 1 [10, 20, 15] 2 (by decide)⟩

/-- Counterexample to C8 as stated: at bar 2 of the close series
[10, 20, 15] with lookbacks [1, 2] and majority threshold 1, the bullish
vote count reaches the threshold (so the claim says the regime is +1),
yet the computed regime is -1, because the bearish assignment runs last. -/
theorem regime_both_thresholds_bear_wins :
    1 ≤ bullVotes [1, 2] [10, 20, 15] 2 ∧
    1 ≤ bearVotes [1, 2] [10, 20, 15] 2 ∧
    regimeCompute [1, 2] 1 [10, 20, 15] = [0, 1, -1] ∧
    (regimeCompute [1, 2] 1 [10, 20, 15]).getD 2 0 ≠ 1 := by
  with_unfolding_all decide

/-! ### Walk-forward fold filtering (C9) -/

/-- A trade whose entry timestamp falls inside March 2025. -/
def tradeMarch : Trade :=
  { side := 1, entry_ts := 1741000000, entry_px := 100, atr_entry := 2,
    r_value := 3, sl_px := 97 }

/-- C9: a trade of the fold's full run appears in the filtered ledger
exactly when its entry timestamp lies in the half-open window from the
start of the first test month to the start of the month one past the last
test month; occurrences are preserved inside the window and dropped
outside it; and adding one month steps the calendar month with year
carry. -/
theorem walkforward_window_filter (test : List (Int × Int))
    (ledger : List Trade) (t : Trade) (hne : test ≠ []) :
    (t ∈ wfFilter test ledger ↔
      t ∈ ledger ∧ monthStartEpoch (test.headD (0, 1)) ≤ t.entry_ts ∧
        t.entry_ts < monthStartEpoch (month_add (test.getLastD (0, 1)) 1)) ∧
    ((wfFilter test ledger).count t =
      if monthStartEpoch (test.headD (0, 1)) ≤ t.entry_ts ∧
         t.entry_ts < monthStartEpoch (month_add (test.getLastD (0, 1)) 1)
       then ledger.count t else 0) ∧
    (∀ y m : Int, 1 ≤ m → m ≤ 12 →
      month_add (y, m) 1 = if m = 12 then (y + 1, 1) else (y, m + 1)) := by
  refine ⟨?_, ?_, ?_⟩
  · unfold wfFilter
    simp [List.mem_filter, decide_eq_true_eq]
  · unfold wfFilter
    by_cases hin : monthStartEpoch (test.headD (0, 1)) ≤ t.entry_ts ∧
        t.entry_ts < monthStartEpoch (month_add (test.getLastD (0, 1)) 1)
    · rw [if_pos hin]
      exact List.count_filter (by simpa using hin)
    · rw [if_neg hin]
      rw [List.count_eq_zero]
      intro hmem
      rcases List.mem_filter.mp hmem with ⟨_, hp⟩
      exact hin (by simpa using hp)
  · intro y m h1 h2
    unfold month_add
    by_cases hm : m = 12
    · subst hm
      norm_num
      constructor <;> omega
    · rw [if_neg hm]
      have : (y * 12 + (m - 1) + 1) / 12 = y ∧
          (y * 12 + (m - 1) + 1) % 12 + 1 = m + 1 := by
        constructor <;> omega
      simp only [Prod.mk.injEq]
      exact ⟨this.1, this.2⟩

/-- Witness for C9 on a one-month test window (March 2025) and a
one-trade ledger whose entry lies inside it. -/
theorem walkforward_window_filter_witness :
    (([((2025 : Int), (3 : Int))] : List (Int × Int)) ≠ []) ∧
    ((tradeMarch ∈ wfFilter [(2025, 3)] [tradeMarch] ↔
      tradeMarch ∈ [tradeMarch] ∧
        monthStartEpoch (([((2025 : Int), (3 : Int))] : List (Int × Int)).headD (0, 1)) ≤ tradeMarch.entry_ts ∧
        tradeMarch.entry_ts <
          monthStartEpoch (month_add (([((2025 : Int), (3 : Int))] : List (Int × Int)).getLastD (0, 1)) 1)) ∧
     ((wfFilter [(2025, 3)] [tradeMarch]).count tradeMarch =
      if monthStartEpoch (([((2025 : Int), (3 : Int))] : List (Int × Int)).headD (0, 1)) ≤ tradeMarch.entry_ts ∧
         tradeMarch.entry_ts <
           monthStartEpoch (month_add (([((2025 : Int), (3 : Int))] : List (Int × Int)).getLastD (0, 1)) 1)
       then List.count tradeMarch [tradeMarch] else 0) ∧
     (∀ y m : Int, 1 ≤ m → m ≤ 12 →
      month_add (y, m) 1 = if m = 12 then (y + 1, 1) else (y, m + 1))) :=
  ⟨by decide,
   walkforward_window_filter [(2025, 3)] [tradeMarch] tradeMarch (by decide)⟩


end BacktestMirror
